import Mathlib

/-!
Shallow embedding of the Runtime Version Manager frontend
(`src/frontend/src/components/WineRunnerManager.tsx`,
`src/frontend/src/components/GameLog.tsx`,
`src/frontend/src/services/WineService.ts`) together with theorems
settling the specification claims about reconciliation, deletion
gating, the download session and the log buffer.

Strings are modelled as Lean `String` (a wrapper around `List Char`);
JavaScript string primitives (`includes`, `split(sep)[0]`, `endsWith`)
are re-implemented as structurally recursive functions over `List Char`.
-/

namespace Rustris

/-- The WineVersionInfo record from `WineService.ts`: one locally installed
Wine/Proton version, `{ path, display_name }`. -/
structure WineVersionInfo where
  path : String
  display_name : String
deriving Repr, DecidableEq

/-- The GeProtonRelease record from `WineService.ts`: one upstream release.
The numeric `size_mb` field is display-only (a JS float) and takes no
part in reconciliation; it is omitted here. -/
structure GeProtonRelease where
  tag_name : String
  name : String
  published_at : String
  download_url : String
deriving Repr, DecidableEq

/-- The `DownloadProgress` record of `WineRunnerManager.tsx` (lines 30-35). -/
structure DownloadProgress where
  progress : Nat
  downloaded : Nat
  total : Nat
  extracting : Bool
deriving Repr, DecidableEq

/-- Payload of a `download-progress` event as destructured at line 54
of `WineRunnerManager.tsx`. -/
structure ProgressEventPayload where
  tag_name : String
  downloaded : Nat
  total : Nat
  progress : Nat
  extracting : Bool
deriving Repr, DecidableEq

/-- JS `haystack.includes(needle)`: `needle` occurs contiguously in
`haystack`. -/
def listContains (needle : List Char) : List Char → Bool
  | [] => needle.isEmpty
  | c :: cs => needle.isPrefixOf (c :: cs) || listContains needle cs

/-- Everything strictly before the first occurrence of `sep`
(the whole list when `sep` does not occur): the semantics of
JS `s.split(sep)[0]` for a non-empty separator. -/
def takeUntilSub (sep : List Char) : List Char → List Char
  | [] => []
  | c :: cs => if sep.isPrefixOf (c :: cs) then [] else c :: takeUntilSub sep cs

/-- The separator `" ("` used by the exact-match rule. -/
def sepParen : List Char := [' ', '(']

/-- Line 185 of `WineRunnerManager.tsx`:
`const cleanName = installed.display_name.split(' (')[0]`. -/
def cleanName (s : String) : String :=
  String.mk (takeUntilSub sepParen s.toList)

/-- JS `s.endsWith(suffix)`. -/
def strEndsWith (s suffix : String) : Bool :=
  suffix.toList.isSuffixOf s.toList

/-- The two exact-match disjuncts of line 186:
`cleanName === release.name || cleanName === release.tag_name`. -/
def exactMatch (installed : WineVersionInfo) (release : GeProtonRelease) : Bool :=
  cleanName installed.display_name == release.name
    || cleanName installed.display_name == release.tag_name

/-- The suffix-match disjunct of line 186:
`installed.path.endsWith(release.tag_name)`. -/
def suffixRule (installed : WineVersionInfo) (release : GeProtonRelease) : Bool :=
  strEndsWith installed.path release.tag_name

/-- The full matching condition of line 186 of `WineRunnerManager.tsx`. -/
def matchesRelease (installed : WineVersionInfo) (release : GeProtonRelease) : Bool :=
  exactMatch installed release || suffixRule installed release

/-- Function getInstalledPath (lines 182-191 of `WineRunnerManager.tsx`): walk
`allInstalledVersions` in order and return the path of the first
installed version matching the release, else `null`. -/
def getInstalledPath (allInstalledVersions : List WineVersionInfo)
    (release : GeProtonRelease) : Option String :=
  match allInstalledVersions with
  | [] => none
  | installed :: rest =>
    if matchesRelease installed release then some installed.path
    else getInstalledPath rest release

/-- Function canDelete (lines 193-196 of `WineRunnerManager.tsx`):
`path.includes('rustris')`. -/
def canDelete (path : String) : Bool :=
  listContains "rustris".toList path.toList

/-- One row of the unified list: the release joined with the matched
installed path, as computed at lines 272-274. -/
structure ReconciledEntry where
  release : GeProtonRelease
  installed_path : Option String
deriving Repr, DecidableEq

/-- The reconciliation performed by the render loop at lines 272-277:
one entry per release, in release order, paired with
`getInstalledPath`. -/
def reconcile (releases : List GeProtonRelease)
    (installed : List WineVersionInfo) : List ReconciledEntry :=
  releases.map (fun release => ⟨release, getInstalledPath installed release⟩)

/-- The action area rendered for one release row (the ternary chain at
lines 356-416 of `WineRunnerManager.tsx`). -/
inductive RowAction where
  | progress
  | installedExternal
  | delete (path : String)
  | download
deriving Repr, DecidableEq

/-- Selection of the action area for one release row, from lines
272-276 (`installedPath`, `isInstalled`, `canDeleteThis`,
`isDownloading`) and the ternary chain at lines 356-416:
`isDownloading ? progress : installed ∧ ¬deletable ? external :
installed ∧ deletable ? delete-button : download-button`. -/
def rowAction (downloadingTag : Option String)
    (allInstalledVersions : List WineVersionInfo)
    (release : GeProtonRelease) : RowAction :=
  if downloadingTag = some release.tag_name then .progress
  else
    match getInstalledPath allInstalledVersions release with
    | some p => if canDelete p then .delete p else .installedExternal
    | none => .download

/-- The component state touched by `handleDownload` and the progress
listener. -/
structure ManagerState where
  downloadingTag : Option String
  downloadProgress : Option DownloadProgress
  errorMessage : String
  successMessage : String
deriving Repr, DecidableEq

/-- Function showSuccess (lines 155-158; the delayed clearing timer is real
time, outside the embedding). -/
def showSuccess (message : String) (s : ManagerState) : ManagerState :=
  { s with successMessage := message }

/-- Function showError (lines 160-163; the delayed clearing timer is real
time, outside the embedding). -/
def showError (message : String) (s : ManagerState) : ManagerState :=
  { s with errorMessage := message }

/-- Function handleDownload (lines 92-119 of `WineRunnerManager.tsx`) as a
state transformer. `result` is the settled outcome of the awaited
`wineService.downloadGeProton` call (`.ok installedPath` or
`.error e`); `post` collects the state effects of the subsequent
`loadData` / `refreshWineVersions` / `onRunnersChanged` calls on the
success path (`loadData` catches its own failures internally). The
`finally` block clears the session fields last in either case. -/
def handleDownload (release : GeProtonRelease) (result : Except String String)
    (post : ManagerState → ManagerState) (s : ManagerState) : ManagerState :=
  let s1 : ManagerState :=
    { s with downloadingTag := some release.tag_name
             downloadProgress := none
             errorMessage := "" }
  let s2 : ManagerState :=
    match result with
    | .ok _installedPath =>
        post (showSuccess (release.name ++ " installed successfully!") s1)
    | .error e => showError ("Failed to download: " ++ e) s1
  { s2 with downloadingTag := none, downloadProgress := none }

/-- The `download-progress` listener body (lines 52-65 of
`WineRunnerManager.tsx`): update the displayed progress only when the
event's `tag_name` equals the currently downloading tag. -/
def onDownloadProgress (downloadingTag : Option String)
    (payload : ProgressEventPayload)
    (current : Option DownloadProgress) : Option DownloadProgress :=
  if some payload.tag_name = downloadingTag then
    some ⟨payload.progress, payload.downloaded, payload.total, payload.extracting⟩
  else current

/-- The constant MAX_LOG_LINES from `GameLog.tsx` line 20. -/
def MAX_LOG_LINES : Nat := 1000

/-- The log-append updater of `GameLog.tsx` lines 41-48: append the
payload's lines, then keep only the last `MAX_LOG_LINES`
(`newLines.slice(-MAX_LOG_LINES)`). -/
def appendLogLines (prevLines payloadLines : List String) : List String :=
  let newLines := prevLines ++ payloadLines
  if newLines.length > MAX_LOG_LINES then
    newLines.drop (newLines.length - MAX_LOG_LINES)
  else newLines

/-- Modelled from the spec: the manager's exclusive installation root
is held by the missing backend (`delete_proton_version` and the
install target directory are Tauri commands not present under `src/`);
a path is owned when it is a strict descendant of that root, i.e.
starts with `root ++ "/"`. -/
def underExclusiveRoot (root path : String) : Bool :=
  (root.toList ++ ['/']).isPrefixOf path.toList

/-- Modelled from the spec: "`InstalledVersion.path` ends with
`Release.tag` as a path segment" - the path either is the tag itself or
ends with `"/" ++ tag`. -/
def specSegmentSuffix (path tag : String) : Bool :=
  path == tag || strEndsWith path ("/" ++ tag)

/-- Modelled from the spec: "display_name, with any trailing
parenthetical annotation stripped". `beforeLast sep s` is the prefix of
`s` strictly before the last occurrence of `sep`, or `none` when `sep`
does not occur. -/
def beforeLast (sep : List Char) : List Char → Option (List Char)
  | [] => none
  | c :: cs =>
    match beforeLast sep cs with
    | some pre => some (c :: pre)
    | none => if sep.isPrefixOf (c :: cs) then some [] else none

/-- Modelled from the spec: strip a trailing parenthetical annotation,
and only a trailing one: when the name ends in `')'` and contains
`" ("`, drop everything from the last `" ("` on; otherwise leave the
name unchanged. -/
def specStripTrailing (s : String) : String :=
  if s.toList.getLast? = some ')' then
    match beforeLast sepParen s.toList with
    | some pre => String.mk pre
    | none => s
  else s

/-- Modelled from the spec: the exact-match rule as worded - the
display name with a trailing annotation stripped equals the release's
display name or its tag. -/
def specExactMatch (installed : WineVersionInfo) (release : GeProtonRelease) : Bool :=
  specStripTrailing installed.display_name == release.name
    || specStripTrailing installed.display_name == release.tag_name

/-- Predicate stating that pre is the prefix of `s` strictly before the first occurrence of
`sep`: either `sep` occurs after `pre` and at no earlier position, or
`sep` does not occur at all and `pre` is all of `s`. -/
def prefixBeforeFirst (sep s pre : List Char) : Prop :=
  ((∃ t, s = pre ++ sep ++ t) ∧
    ∀ pre' t', s = pre' ++ sep ++ t' → pre.length ≤ pre'.length)
  ∨ (pre = s ∧ ¬ ∃ pre' t', s = pre' ++ sep ++ t')

end Rustris


namespace Rustris

/-- Characterization of the embedded JS includes: the needle occurs
contiguously somewhere in the haystack. -/
theorem listContains_iff (needle s : List Char) :
    listContains needle s = true ↔ ∃ a b, s = a ++ needle ++ b := by
  induction s with
  | nil =>
    simp only [listContains, List.isEmpty_iff]
    constructor
    · rintro rfl
      exact ⟨[], [], rfl⟩
    · rintro ⟨a, b, h⟩
      rcases List.append_eq_nil.mp h.symm with ⟨h1, h2⟩
      rcases List.append_eq_nil.mp h1 with ⟨-, h3⟩
      exact h3
  | cons c cs ih =>
    simp only [listContains, Bool.or_eq_true, ih, List.isPrefixOf_iff_prefix]
    constructor
    · rintro (⟨t, ht⟩ | ⟨a, b, rfl⟩)
      · exact ⟨[], t, by simp [← ht]⟩
      · exact ⟨c :: a, b, rfl⟩
    · rintro ⟨a, b, h⟩
      cases a with
      | nil =>
        left
        exact ⟨b, by simp [h]⟩
      | cons a0 a' =>
        right
        rw [List.cons_append, List.cons_append] at h
        injection h with h0 h1
        exact ⟨a', b, h1⟩

/-- takeUntilSub computes the prefix strictly before the first
occurrence of a non-empty separator. -/
theorem takeUntilSub_spec (sep : List Char) (hsep : sep ≠ []) :
    ∀ s : List Char, prefixBeforeFirst sep s (takeUntilSub sep s) := by
  intro s
  induction s with
  | nil =>
    right
    refine ⟨rfl, ?_⟩
    rintro ⟨pre', t', h⟩
    cases pre' with
    | nil =>
      cases sep with
      | nil => exact hsep rfl
      | cons x xs => simp at h
    | cons p ps => simp at h
  | cons c cs ih =>
    by_cases hp : sep.isPrefixOf (c :: cs)
    · rw [List.isPrefixOf_iff_prefix] at hp
      obtain ⟨t, ht⟩ := hp
      left
      refine ⟨⟨t, by simp [takeUntilSub, List.isPrefixOf_iff_prefix.mpr ⟨t, ht⟩, ← ht]⟩, ?_⟩
      intro pre' t' _
      simp [takeUntilSub, List.isPrefixOf_iff_prefix.mpr ⟨t, ht⟩]
    · have htake : takeUntilSub sep (c :: cs) = c :: takeUntilSub sep cs := by
        simp [takeUntilSub, hp]
      rcases ih with ⟨⟨t, ht⟩, hmin⟩ | ⟨heq, hno⟩
      · left
        constructor
        · exact ⟨t, by rw [htake, List.cons_append, List.cons_append, ← ht]⟩
        · intro pre' t' h'
          cases pre' with
          | nil =>
            exfalso
            apply hp
            rw [List.isPrefixOf_iff_prefix]
            exact ⟨t', by simp at h'; simp [h']⟩
          | cons p0 ps =>
            rw [List.cons_append, List.cons_append] at h'
            injection h' with h0 h1
            rw [htake]
            simpa using hmin ps t' h1
      · right
        constructor
        · rw [htake, heq]
        · rintro ⟨pre', t', h'⟩
          cases pre' with
          | nil =>
            apply hp
            rw [List.isPrefixOf_iff_prefix]
            exact ⟨t', by simp at h'; simp [h']⟩
          | cons p0 ps =>
            rw [List.cons_append, List.cons_append] at h'
            injection h' with h0 h1
            exact hno ⟨ps, t', h1⟩

/-- The prefix before the first occurrence is unique. -/
theorem prefixBeforeFirst_unique {sep s p q : List Char}
    (hp : prefixBeforeFirst sep s p) (hq : prefixBeforeFirst sep s q) : p = q := by
  rcases hp with ⟨⟨t, ht⟩, hpmin⟩ | ⟨hpe, hpno⟩
  · rcases hq with ⟨⟨u, hu⟩, hqmin⟩ | ⟨hqe, hqno⟩
    · have hlen : p.length = q.length :=
        Nat.le_antisymm (hpmin q u hu) (hqmin p t ht)
      have : p ++ (sep ++ t) = q ++ (sep ++ u) := by
        rw [← List.append_assoc, ← List.append_assoc, ← ht, ← hu]
      exact (List.append_inj this hlen).1
    · exact absurd ⟨p, t, ht⟩ hqno
  · rcases hq with ⟨⟨u, hu⟩, hqmin⟩ | ⟨hqe, hqno⟩
    · exact absurd ⟨q, u, hu⟩ hpno
    · rw [hpe, hqe]

end Rustris

namespace Rustris

/-- If no installed version matches a release, the lookup returns none. -/
theorem getInstalledPath_eq_none (installed : List WineVersionInfo)
    (release : GeProtonRelease)
    (h : ∀ v ∈ installed, matchesRelease v release = false) :
    getInstalledPath installed release = none := by
  induction installed with
  | nil => rfl
  | cons v rest ih =>
    have hv : matchesRelease v release = false := h v (by simp)
    simp only [getInstalledPath, hv, Bool.false_eq_true, if_false]
    exact ih (fun v' hv' => h v' (by simp [hv']))

/-- C4: reconciliation produces exactly one entry per release, in the
releases' input order, and a release for which no installed version
satisfies the matching rule gets no installed path (it is rendered as
downloadable, not installed). -/
theorem c4_reconcile_shape (releases : List GeProtonRelease)
    (installed : List WineVersionInfo) :
    (reconcile releases installed).map ReconciledEntry.release = releases ∧
    (reconcile releases installed).length = releases.length ∧
    ∀ e ∈ reconcile releases installed,
      (∀ v ∈ installed, matchesRelease v e.release = false) →
        e.installed_path = none := by
  refine ⟨by simp [reconcile, Function.comp_def], by simp [reconcile], ?_⟩
  intro e he hno
  simp only [reconcile, List.mem_map] at he
  obtain ⟨r, _, rfl⟩ := he
  exact getInstalledPath_eq_none installed r hno

/-- Witness for C4 at a one-release, one-non-matching-install input. -/
theorem c4_reconcile_shape_witness :
    (reconcile [⟨"GE-Proton9-21", "GE-Proton9-21", "2025-01-01", "https://u"⟩]
        [⟨"/opt/vendor/Other", "Other-Thing"⟩]).map ReconciledEntry.release
      = [⟨"GE-Proton9-21", "GE-Proton9-21", "2025-01-01", "https://u"⟩] ∧
    ReconciledEntry.installed_path
      ⟨⟨"GE-Proton9-21", "GE-Proton9-21", "2025-01-01", "https://u"⟩,
        getInstalledPath [⟨"/opt/vendor/Other", "Other-Thing"⟩]
          ⟨"GE-Proton9-21", "GE-Proton9-21", "2025-01-01", "https://u"⟩⟩ = none := by
  have h := c4_reconcile_shape
    [⟨"GE-Proton9-21", "GE-Proton9-21", "2025-01-01", "https://u"⟩]
    [⟨"/opt/vendor/Other", "Other-Thing"⟩]
  exact ⟨h.1, h.2.2 _ (by simp [reconcile]) (by decide)⟩

/-- C7: however the download-and-install call settles, handleDownload
clears the session fields (downloading tag and progress record), and a
rejection is surfaced as an error message carrying the reason. -/
theorem c7_handleDownload_cleanup (release : GeProtonRelease)
    (result : Except String String) (post : ManagerState → ManagerState)
    (s : ManagerState) :
    (handleDownload release result post s).downloadingTag = none ∧
    (handleDownload release result post s).downloadProgress = none ∧
    ∀ e, result = .error e →
      (handleDownload release result post s).errorMessage
        = "Failed to download: " ++ e := by
  refine ⟨rfl, rfl, ?_⟩
  rintro e rfl
  rfl

/-- Witness for C7 at a failing download with a dirty prior state. -/
theorem c7_handleDownload_cleanup_witness :
    (handleDownload ⟨"GE-Proton9-21", "GE-Proton9-21", "2025-01-01", "https://u"⟩
        (.error "network unreachable") id
        ⟨some "GE-Proton9-21", some ⟨40, 40, 100, false⟩, "", ""⟩).downloadingTag
      = none ∧
    (handleDownload ⟨"GE-Proton9-21", "GE-Proton9-21", "2025-01-01", "https://u"⟩
        (.error "network unreachable") id
        ⟨some "GE-Proton9-21", some ⟨40, 40, 100, false⟩, "", ""⟩).downloadProgress
      = none ∧
    (handleDownload ⟨"GE-Proton9-21", "GE-Proton9-21", "2025-01-01", "https://u"⟩
        (.error "network unreachable") id
        ⟨some "GE-Proton9-21", some ⟨40, 40, 100, false⟩, "", ""⟩).errorMessage
      = "Failed to download: " ++ "network unreachable" := by
  have h := c7_handleDownload_cleanup
    ⟨"GE-Proton9-21", "GE-Proton9-21", "2025-01-01", "https://u"⟩
    (.error "network unreachable") id
    ⟨some "GE-Proton9-21", some ⟨40, 40, 100, false⟩, "", ""⟩
  exact ⟨h.1, h.2.1, h.2.2 "network unreachable" rfl⟩

/-- C8: the spec's concrete scenario - an install at
/opt/vendor/GE-Proton9-21 named "GE-Proton9-21 (VendorTool)", outside
the exclusive root, is matched to the GE-Proton9-21 release, yet is
not deletable: its row shows the Installed (External) label and offers
no delete action. -/
theorem c8_external_install_scenario :
    getInstalledPath [⟨"/opt/vendor/GE-Proton9-21", "GE-Proton9-21 (VendorTool)"⟩]
        ⟨"GE-Proton9-21", "GE-Proton9-21", "2025-01-01", "https://u"⟩
      = some "/opt/vendor/GE-Proton9-21" ∧
    canDelete "/opt/vendor/GE-Proton9-21" = false ∧
    rowAction none [⟨"/opt/vendor/GE-Proton9-21", "GE-Proton9-21 (VendorTool)"⟩]
        ⟨"GE-Proton9-21", "GE-Proton9-21", "2025-01-01", "https://u"⟩
      = RowAction.installedExternal := by
  decide

/-- C9: a progress event whose tag differs from the active downloading
tag (in particular any event while no download is active) leaves the
displayed progress unchanged; an event for the active tag replaces it
with the event's progress, downloaded, total and extracting fields. -/
theorem c9_progress_frame (downloadingTag : Option String)
    (payload : ProgressEventPayload) (current : Option DownloadProgress) :
    (some payload.tag_name ≠ downloadingTag →
      onDownloadProgress downloadingTag payload current = current) ∧
    (some payload.tag_name = downloadingTag →
      onDownloadProgress downloadingTag payload current
        = some ⟨payload.progress, payload.downloaded, payload.total,
                payload.extracting⟩) := by
  constructor <;> intro h <;> simp [onDownloadProgress, h]

/-- Witness for C9: a mismatched event is dropped, a matching one is
applied. -/
theorem c9_progress_frame_witness :
    onDownloadProgress none ⟨"GE-Proton9-21", 90, 100, 90, false⟩
        (some ⟨40, 40, 100, false⟩) = some ⟨40, 40, 100, false⟩ ∧
    onDownloadProgress (some "GE-Proton9-21") ⟨"GE-Proton9-21", 90, 100, 90, false⟩
        (some ⟨40, 40, 100, false⟩) = some ⟨90, 90, 100, false⟩ := by
  refine ⟨(c9_progress_frame none ⟨"GE-Proton9-21", 90, 100, 90, false⟩
      (some ⟨40, 40, 100, false⟩)).1 (by simp), ?_⟩
  exact (c9_progress_frame (some "GE-Proton9-21") ⟨"GE-Proton9-21", 90, 100, 90, false⟩
      (some ⟨40, 40, 100, false⟩)).2 rfl

/-- C10: after appending a log payload the retained list never exceeds
MAX_LOG_LINES lines; it is always a suffix of the appended sequence
(the most recent lines in arrival order), of length exactly
MAX_LOG_LINES whenever the appended sequence is at least that long. -/
theorem c10_log_bound (prevLines payloadLines : List String) :
    (appendLogLines prevLines payloadLines).length ≤ MAX_LOG_LINES ∧
    List.IsSuffix (appendLogLines prevLines payloadLines)
      (prevLines ++ payloadLines) ∧
    (appendLogLines prevLines payloadLines).length
      = min (prevLines ++ payloadLines).length MAX_LOG_LINES := by
  have hdef : appendLogLines prevLines payloadLines =
      if (prevLines ++ payloadLines).length > MAX_LOG_LINES then
        (prevLines ++ payloadLines).drop
          ((prevLines ++ payloadLines).length - MAX_LOG_LINES)
      else prevLines ++ payloadLines := rfl
  rw [hdef]
  by_cases h : (prevLines ++ payloadLines).length > MAX_LOG_LINES
  · rw [if_pos h]
    refine ⟨?_, List.drop_suffix _ _, ?_⟩
    · rw [List.length_drop]; omega
    · rw [List.length_drop]; omega
  · rw [if_neg h]
    exact ⟨by omega, List.suffix_refl _, by omega⟩

end Rustris

namespace Rustris

/-- C1 counterexample: the spec's scenario designates /opt/vendor as an
externally scanned root, disjoint from the manager's exclusive root;
yet a matched path under it that happens to contain the substring
"rustris" is classified deletable and its row offers the Delete
action instead of the Installed (External) label. -/
theorem c1_counterexample :
    underExclusiveRoot "/opt/vendor" "/opt/vendor/rustris-mirror/GE-Proton9-21"
      = true ∧
    canDelete "/opt/vendor/rustris-mirror/GE-Proton9-21" = true ∧
    rowAction none
        [⟨"/opt/vendor/rustris-mirror/GE-Proton9-21", "GE-Proton9-21"⟩]
        ⟨"GE-Proton9-21", "GE-Proton9-21", "2025-01-01", "https://u"⟩
      = RowAction.delete "/opt/vendor/rustris-mirror/GE-Proton9-21" := by
  decide

/-- C1 amended: for a matched installed path p, the row offers the
Delete action exactly when p contains the substring "rustris", and the
Installed (External) label exactly when it does not; containment under
the exclusive installation root is never consulted. -/
theorem c1_owned_iff_substring (release : GeProtonRelease)
    (installed : List WineVersionInfo) (p : String)
    (hmatch : getInstalledPath installed release = some p) :
    (rowAction none installed release = RowAction.delete p ↔
      ∃ a b, p.toList = a ++ "rustris".toList ++ b) ∧
    (rowAction none installed release = RowAction.installedExternal ↔
      ¬ ∃ a b, p.toList = a ++ "rustris".toList ++ b) := by
  have hrow : rowAction none installed release =
      (if canDelete p then RowAction.delete p else RowAction.installedExternal) := by
    unfold rowAction
    rw [if_neg (by simp), hmatch]
  rw [hrow]
  by_cases hc : canDelete p = true
  · rw [if_pos hc]
    exact ⟨iff_of_true rfl ((listContains_iff _ _).mp hc),
      iff_of_false (by simp) (not_not_intro ((listContains_iff _ _).mp hc))⟩
  · rw [if_neg hc]
    exact ⟨iff_of_false (by simp) (fun hex => hc ((listContains_iff _ _).mpr hex)),
      iff_of_true rfl (fun hex => hc ((listContains_iff _ _).mpr hex))⟩

/-- Witness for the amended C1: a matched path containing "rustris" is
offered deletion; one without it gets the external label. -/
theorem c1_owned_iff_substring_witness :
    rowAction none
        [⟨"/home/u/.local/share/rustris/wine/GE-Proton9-21", "GE-Proton9-21"⟩]
        ⟨"GE-Proton9-21", "GE-Proton9-21", "2025-01-01", "https://u"⟩
      = RowAction.delete "/home/u/.local/share/rustris/wine/GE-Proton9-21" ∧
    rowAction none
        [⟨"/opt/vendor/GE-Proton9-21", "GE-Proton9-21"⟩]
        ⟨"GE-Proton9-21", "GE-Proton9-21", "2025-01-01", "https://u"⟩
      = RowAction.installedExternal := by
  constructor
  · exact (c1_owned_iff_substring
        ⟨"GE-Proton9-21", "GE-Proton9-21", "2025-01-01", "https://u"⟩
        [⟨"/home/u/.local/share/rustris/wine/GE-Proton9-21", "GE-Proton9-21"⟩]
        "/home/u/.local/share/rustris/wine/GE-Proton9-21" (by decide)).1.mpr
      ⟨"/home/u/.local/share/".toList, "/wine/GE-Proton9-21".toList, by decide⟩
  · exact (c1_owned_iff_substring
        ⟨"GE-Proton9-21", "GE-Proton9-21", "2025-01-01", "https://u"⟩
        [⟨"/opt/vendor/GE-Proton9-21", "GE-Proton9-21"⟩]
        "/opt/vendor/GE-Proton9-21" (by decide)).2.mpr
      (by rw [← listContains_iff]; decide)

/-- C2 counterexample: for the installed display name
"Proton (Custom) Build (Lutris)" and a release named
"Proton (Custom) Build", stripping only the trailing parenthetical
yields the release name, so the claim says the exact rule matches; the
code truncates at the FIRST " (", compares "Proton", and does not
match. -/
theorem c2_counterexample :
    exactMatch ⟨"/data/x", "Proton (Custom) Build (Lutris)"⟩
        ⟨"GE-x", "Proton (Custom) Build", "2025-01-01", "https://u"⟩ = false ∧
    specExactMatch ⟨"/data/x", "Proton (Custom) Build (Lutris)"⟩
        ⟨"GE-x", "Proton (Custom) Build", "2025-01-01", "https://u"⟩ = true ∧
    cleanName "Proton (Custom) Build (Lutris)" = "Proton" := by
  decide

/-- C2 amended: the exact rule matches v to r exactly when the prefix
of v.display_name strictly before the FIRST occurrence of " (" (the
whole name when " (" does not occur) equals r.display_name or r.tag;
everything from the first " (" on is stripped, not merely a trailing
annotation. -/
theorem c2_exact_first_paren (v : WineVersionInfo) (r : GeProtonRelease) :
    exactMatch v r = true ↔
      ∃ pre : List Char,
        prefixBeforeFirst sepParen v.display_name.toList pre ∧
        (String.mk pre = r.name ∨ String.mk pre = r.tag_name) := by
  have hspec := takeUntilSub_spec sepParen (by decide) v.display_name.toList
  constructor
  · intro h
    refine ⟨takeUntilSub sepParen v.display_name.toList, hspec, ?_⟩
    rcases Bool.or_eq_true_iff.mp h with h1 | h1
    · exact Or.inl (beq_iff_eq.mp h1)
    · exact Or.inr (beq_iff_eq.mp h1)
  · rintro ⟨pre, hpre, hname⟩
    have hpe : pre = takeUntilSub sepParen v.display_name.toList :=
      prefixBeforeFirst_unique hpre hspec
    subst hpe
    rcases hname with h | h
    · exact Bool.or_eq_true_iff.mpr (Or.inl (beq_iff_eq.mpr h))
    · exact Bool.or_eq_true_iff.mpr (Or.inr (beq_iff_eq.mpr h))

/-- C3 counterexample: a path whose final segment merely has the tag as
a proper suffix still matches - /x/MyGE-Proton9-21 matches tag
GE-Proton9-21 through the suffix rule (its display name matches
neither exact disjunct), although the tag is not a whole path
segment there. -/
theorem c3_counterexample :
    suffixRule ⟨"/x/MyGE-Proton9-21", "My GE build"⟩
        ⟨"GE-Proton9-21", "GE-Proton9-21", "2025-01-01", "https://u"⟩ = true ∧
    exactMatch ⟨"/x/MyGE-Proton9-21", "My GE build"⟩
        ⟨"GE-Proton9-21", "GE-Proton9-21", "2025-01-01", "https://u"⟩ = false ∧
    specSegmentSuffix "/x/MyGE-Proton9-21" "GE-Proton9-21" = false ∧
    getInstalledPath [⟨"/x/MyGE-Proton9-21", "My GE build"⟩]
        ⟨"GE-Proton9-21", "GE-Proton9-21", "2025-01-01", "https://u"⟩
      = some "/x/MyGE-Proton9-21" := by
  decide

/-- C3 amended: the suffix rule tests a plain string suffix. Every path
ending with the tag as a whole segment (the path is the tag, or ends
with "/" ++ tag) does match, but the rule is coarser: string suffixes
that cut a segment, as in the counterexample, match as well. -/
theorem c3_segment_suffix_matches (v : WineVersionInfo) (r : GeProtonRelease)
    (h : specSegmentSuffix v.path r.tag_name = true) :
    suffixRule v r = true := by
  unfold specSegmentSuffix at h
  rcases Bool.or_eq_true_iff.mp h with h1 | h1
  · have : v.path = r.tag_name := beq_iff_eq.mp h1
    unfold suffixRule strEndsWith
    rw [this]
    exact List.isSuffixOf_iff_suffix.mpr (List.suffix_refl _)
  · unfold suffixRule strEndsWith
    unfold strEndsWith at h1
    have hsfx : ("/" ++ r.tag_name).toList.IsSuffix v.path.toList :=
      List.isSuffixOf_iff_suffix.mp h1
    refine List.isSuffixOf_iff_suffix.mpr (List.IsSuffix.trans ?_ hsfx)
    show r.tag_name.toList.IsSuffix ("/" ++ r.tag_name).data
    rw [String.data_append]
    exact List.suffix_append _ _
end Rustris

namespace Rustris

/-- Witness for the amended C3: a whole-segment suffix matches. -/
theorem c3_segment_suffix_matches_witness :
    specSegmentSuffix "/roots/GE-Proton9-21" "GE-Proton9-21" = true ∧
    suffixRule ⟨"/roots/GE-Proton9-21", "unrelated"⟩
        ⟨"GE-Proton9-21", "GE-Proton9-21", "2025-01-01", "https://u"⟩ = true := by
  refine ⟨by decide, ?_⟩
  exact c3_segment_suffix_matches ⟨"/roots/GE-Proton9-21", "unrelated"⟩
    ⟨"GE-Proton9-21", "GE-Proton9-21", "2025-01-01", "https://u"⟩ (by decide)

/-- C5 counterexample: two installed versions, one external and one
under a rustris-owned directory, both exact-match the release; the
matched path is whichever comes first in the scanner's list order, so
with the external version listed first the external path wins,
contradicting the claimed preference for the exclusive-root copy
regardless of order. -/
theorem c5_counterexample :
    exactMatch ⟨"/opt/vendor/GE-Proton9-21", "GE-Proton9-21"⟩
        ⟨"GE-Proton9-21", "GE-Proton9-21", "2025-01-01", "https://u"⟩ = true ∧
    exactMatch ⟨"/home/u/.local/share/rustris/wine/GE-Proton9-21", "GE-Proton9-21"⟩
        ⟨"GE-Proton9-21", "GE-Proton9-21", "2025-01-01", "https://u"⟩ = true ∧
    canDelete "/opt/vendor/GE-Proton9-21" = false ∧
    canDelete "/home/u/.local/share/rustris/wine/GE-Proton9-21" = true ∧
    getInstalledPath
        [⟨"/opt/vendor/GE-Proton9-21", "GE-Proton9-21"⟩,
         ⟨"/home/u/.local/share/rustris/wine/GE-Proton9-21", "GE-Proton9-21"⟩]
        ⟨"GE-Proton9-21", "GE-Proton9-21", "2025-01-01", "https://u"⟩
      = some "/opt/vendor/GE-Proton9-21" ∧
    getInstalledPath
        [⟨"/home/u/.local/share/rustris/wine/GE-Proton9-21", "GE-Proton9-21"⟩,
         ⟨"/opt/vendor/GE-Proton9-21", "GE-Proton9-21"⟩]
        ⟨"GE-Proton9-21", "GE-Proton9-21", "2025-01-01", "https://u"⟩
      = some "/home/u/.local/share/rustris/wine/GE-Proton9-21" := by
  decide

/-- C5 amended: ties between several matching installed versions are
broken purely by scanner list order - the first version in the list
satisfying any rule is matched, with no preference for paths under the
exclusive installation root. -/
theorem c5_first_match_wins (v : WineVersionInfo)
    (ins : List WineVersionInfo) (r : GeProtonRelease) :
    (matchesRelease v r = true → getInstalledPath (v :: ins) r = some v.path) ∧
    (matchesRelease v r = false → getInstalledPath (v :: ins) r
      = getInstalledPath ins r) := by
  constructor <;> intro h <;> simp [getInstalledPath, h]

/-- Witness for the amended C5: the head of the list wins when it
matches and is skipped when it does not. -/
theorem c5_first_match_wins_witness :
    getInstalledPath
        [⟨"/opt/vendor/GE-Proton9-21", "GE-Proton9-21"⟩,
         ⟨"/home/u/.local/share/rustris/wine/GE-Proton9-21", "GE-Proton9-21"⟩]
        ⟨"GE-Proton9-21", "GE-Proton9-21", "2025-01-01", "https://u"⟩
      = some "/opt/vendor/GE-Proton9-21" ∧
    getInstalledPath
        [⟨"/steam/SteamLinuxRuntime", "Steam Runtime"⟩]
        ⟨"GE-Proton9-21", "GE-Proton9-21", "2025-01-01", "https://u"⟩
      = getInstalledPath []
        ⟨"GE-Proton9-21", "GE-Proton9-21", "2025-01-01", "https://u"⟩ := by
  constructor
  · exact (c5_first_match_wins ⟨"/opt/vendor/GE-Proton9-21", "GE-Proton9-21"⟩
      [⟨"/home/u/.local/share/rustris/wine/GE-Proton9-21", "GE-Proton9-21"⟩]
      ⟨"GE-Proton9-21", "GE-Proton9-21", "2025-01-01", "https://u"⟩).1 (by decide)
  · exact (c5_first_match_wins ⟨"/steam/SteamLinuxRuntime", "Steam Runtime"⟩ []
      ⟨"GE-Proton9-21", "GE-Proton9-21", "2025-01-01", "https://u"⟩).2 (by decide)

/-- C6 counterexample: while GE-Proton9-21 is downloading, the row of
the uninstalled release GE-Proton9-20 still renders the enabled
Download button, so a second concurrent download can be started from
the interface. -/
theorem c6_counterexample :
    rowAction (some "GE-Proton9-21") []
        ⟨"GE-Proton9-20", "GE-Proton9-20", "2024-12-01", "https://u"⟩
      = RowAction.download := by
  decide

/-- C6 amended: only the release currently being downloaded has its
trigger replaced by the progress panel; every other uninstalled
release keeps an enabled Download trigger while the download is in
progress, so the interface alone does not enforce the single-flight
invariant. -/
theorem c6_only_active_row_blocked (downloadingTag : String)
    (ins : List WineVersionInfo) (r : GeProtonRelease) :
    (downloadingTag = r.tag_name →
      rowAction (some downloadingTag) ins r = RowAction.progress) ∧
    (downloadingTag ≠ r.tag_name → getInstalledPath ins r = none →
      rowAction (some downloadingTag) ins r = RowAction.download) := by
  constructor
  · intro h
    simp [rowAction, h]
  · intro h hnone
    simp [rowAction, h, hnone]

/-- Witness for the amended C6: the active row shows progress, another
uninstalled row still shows the Download trigger. -/
theorem c6_only_active_row_blocked_witness :
    rowAction (some "GE-Proton9-21") []
        ⟨"GE-Proton9-21", "GE-Proton9-21", "2025-01-01", "https://u"⟩
      = RowAction.progress ∧
    rowAction (some "GE-Proton9-21") []
        ⟨"GE-Proton9-20", "GE-Proton9-20", "2024-12-01", "https://u"⟩
      = RowAction.download := by
  constructor
  · exact (c6_only_active_row_blocked "GE-Proton9-21" []
      ⟨"GE-Proton9-21", "GE-Proton9-21", "2025-01-01", "https://u"⟩).1 rfl
  · exact (c6_only_active_row_blocked "GE-Proton9-21" []
      ⟨"GE-Proton9-20", "GE-Proton9-20", "2024-12-01", "https://u"⟩).2
      (by decide) (by decide)

end Rustris
